import Mathlib

/-!
Shallow embedding of the `keiba` package: the SQLite rows reachable through
the loaders, the trio (三連複) statistics engine and the recommendation
ranker of `analysis.py`, and the upsert-based ingestion of `data_loader.py`
over the schema of `database.py`.  Python floats are modelled as rationals;
nullable REAL columns become `Option ℚ`; fallible functions return `Except`.
-/

namespace Keiba

/-- Error taxonomy of the spec, standing for the `ValueError`s raised by
`analysis.py` (each distinct raise site gets its kind). -/
inductive AnalysisError where
  | NoMatchingData
  | IncompleteHistoricalData
  | InvalidTicketCount
  | InvalidBudget
  | InsufficientCandidates
deriving Repr, DecidableEq

/-- A `race_entries` row as seen by the analysis query.  `popularity` and
`finish_position` are written by the loaders through integer casts and are
therefore never NULL; the payout columns are nullable REAL columns. -/
structure EntryRow where
  popularity : Int
  finish_position : Int
  return_win : Option ℚ
  return_place : Option ℚ
deriving Repr, DecidableEq

/-- The six descriptive attributes of a `races` row used by the filter
builder (`_build_filters`). -/
structure RaceMeta where
  racecourse : String
  distance : Int
  track_condition : String
  num_runners : Int
  track_direction : String
  weather : String
deriving Repr, DecidableEq

/-- A `races` row joined with its `race_entries` rows (the store keys races
by `race_id`, so distinct list elements carry distinct ids). -/
structure Race where
  race_id : String
  meta : RaceMeta
  entries : List EntryRow
deriving Repr, DecidableEq

/-- Optional equality constraints handed to `_build_filters`; an unset
field adds no clause. -/
structure Filters where
  racecourse : Option String := none
  distance : Option Int := none
  track_condition : Option String := none
  num_runners : Option Int := none
  track_direction : Option String := none
  weather : Option String := none
deriving Repr, DecidableEq

/-- One equality clause of `_build_filters`: an unset value constrains
nothing. -/
def matchOpt {α : Type} [DecidableEq α] (constraint : Option α) (v : α) : Bool :=
  match constraint with
  | none => true
  | some x => x = v

/-- The conjunctive WHERE clause produced by `_build_filters`. -/
def matchesFilters (f : Filters) (m : RaceMeta) : Bool :=
  matchOpt f.racecourse m.racecourse &&
  matchOpt f.distance m.distance &&
  matchOpt f.track_condition m.track_condition &&
  matchOpt f.num_runners m.num_runners &&
  matchOpt f.track_direction m.track_direction &&
  matchOpt f.weather m.weather

/-- The rows of one race retrieved by the statistics query, which keeps
entries with `e.finish_position <= 3`. -/
def retrievedEntries (r : Race) : List EntryRow :=
  r.entries.filter (fun e => e.finish_position ≤ 3)

/-- The races surviving the WHERE clause, in store order. -/
def filteredRaces (f : Filters) (db : List Race) : List Race :=
  db.filter (fun r => matchesFilters f r.meta)

/-- Per-combination accumulator of `_fetch_trifecta_statistics`
(`count`, `total_return`, `total_popularity_sum`, all Python floats). -/
structure ComboStat where
  count : ℚ
  total_return : ℚ
  total_popularity_sum : ℚ
deriving Repr, DecidableEq

/-- Stable insertion for ascending integer sort, placing a new element
before the first element not smaller than it: the behaviour of Python
`sorted` on the elements already processed. -/
def insAsc (x : Int) : List Int → List Int
  | [] => [x]
  | y :: ys => if y < x then y :: insAsc x ys else x :: y :: ys

/-- Python `sorted` on a list of ints (stable ascending sort). -/
def sortAsc (l : List Int) : List Int :=
  l.foldr insAsc []

/-- The race's blended return in `_flush_race`: each entry's place payout
(NULL read as 0.0) plus, for an entry that finished 1st, its win payout
(NULL read as 0.0). -/
def blendedReturn (entries : List EntryRow) : ℚ :=
  entries.foldl
    (fun acc e =>
      let acc2 := acc + (e.return_place.getD 0)
      if e.finish_position = 1 then acc2 + (e.return_win.getD 0) else acc2)
    0

/-- Python `dict.setdefault` followed by the three `+=` updates of
`_flush_race`: update in place when the key exists, else append. -/
def updateCombo (stats : List (List Int × ComboStat)) (key : List Int)
    (ret : ℚ) (popSum : ℚ) : List (List Int × ComboStat) :=
  match stats with
  | [] => [(key, ⟨1, ret, popSum⟩)]
  | (k, s) :: rest =>
      if k = key then
        (k, ⟨s.count + 1, s.total_return + ret, s.total_popularity_sum + popSum⟩) :: rest
      else
        (k, s) :: updateCombo rest key ret popSum

/-- State threaded through the per-race grouping loop of
`_fetch_trifecta_statistics`. -/
structure TrioState where
  total_races : Nat
  combo_stats : List (List Int × ComboStat)
deriving Repr, DecidableEq

/-- The race qualifies in `_flush_race`: exactly three retrieved entries,
all with strictly positive popularity. -/
def raceQualifies (entries : List EntryRow) : Bool :=
  entries.length = 3 && !(entries.map (·.popularity)).any (fun p => p ≤ 0)

/-- The combination key formed in `_flush_race`: the ascending-sorted
popularity ranks of the retrieved entries. -/
def comboKey (entries : List EntryRow) : List Int :=
  sortAsc (entries.map (·.popularity))

/-- Sum of the popularity ranks of the retrieved entries, as a float. -/
def popularitySum (entries : List EntryRow) : ℚ :=
  ((entries.map (·.popularity)).map (fun p => (p : ℚ))).sum

/-- `_flush_race`: ignore the race unless it qualifies; otherwise count it
and accumulate its contribution under its combination key. -/
def flushRace (st : TrioState) (entries : List EntryRow) : TrioState :=
  if raceQualifies entries then
    { total_races := st.total_races + 1,
      combo_stats :=
        updateCombo st.combo_stats (comboKey entries)
          (blendedReturn entries) (popularitySum entries) }
  else
    st

/-- The grouping loop: each filtered race's retrieved rows form one group
(the query orders rows by race then finish position, so groups are the
per-race row blocks; `_flush_race` is insensitive to order inside a
group). -/
def trioFold (races : List Race) : TrioState :=
  races.foldl (fun st r => flushRace st (retrievedEntries r)) ⟨0, []⟩

/-- `_fetch_trifecta_statistics`: error when the query returns no rows,
error when rows exist but no race qualifies, else the qualifying race
count and the per-combination statistics. -/
def fetchTrifectaStatistics (f : Filters) (db : List Race) :
    Except AnalysisError (Nat × List (List Int × ComboStat)) :=
  if (filteredRaces f db).all (fun r => retrievedEntries r = []) then
    .error .NoMatchingData
  else if (trioFold (filteredRaces f db)).total_races = 0 then
    .error .IncompleteHistoricalData
  else
    .ok ((trioFold (filteredRaces f db)).total_races,
         (trioFold (filteredRaces f db)).combo_stats)

/-- Output value object of the ranker (`BetRecommendation`). -/
structure BetRecommendation where
  combination : List Int
  hit_rate : ℚ
  estimated_average_payout : ℚ
  expected_return_per_ticket : ℚ
  suggested_bet_amount : ℚ
deriving Repr, DecidableEq

/-- `dict.get` on the combination statistics. -/
def lookupCombo (stats : List (List Int × ComboStat)) (key : List Int) :
    Option ComboStat :=
  (stats.find? (fun p => p.1 = key)).map (fun p => p.2)

/-- All 2-element combinations of a list, in the enumeration order of
Python `itertools.combinations`. -/
def combinations2 : List Int → List (List Int)
  | [] => []
  | x :: xs => xs.map (fun y => [x, y]) ++ combinations2 xs

/-- All 3-element combinations of a list, in the enumeration order of
Python `itertools.combinations`. -/
def combinations3 : List Int → List (List Int)
  | [] => []
  | x :: xs => (combinations2 xs).map (fun p => x :: p) ++ combinations3 xs

/-- The candidate combinations of `recommend_bets`:
`combinations(sorted(set(horse_popularities)), 3)`. -/
def candidateCombos (horse_popularities : List Int) : List (List Int) :=
  combinations3 (sortAsc horse_popularities.dedup)

/-- The global fallback average payout: the mean over observed combination
statistics of `total_return / count`, or 100.0 when the statistics map is
empty. -/
def globalAvgReturn (combo_stats : List (List Int × ComboStat)) : ℚ :=
  if combo_stats ≠ [] then
    let avg_returns :=
      (combo_stats.filter (fun p => 0 < p.2.count)).map
        (fun p => p.2.total_return / p.2.count)
    avg_returns.sum / (avg_returns.length : ℚ)
  else
    100

/-- The recommendation built for one candidate combination in the loop of
`recommend_bets`. -/
def mkRecommendation (total_races : Nat) (combo_stats : List (List Int × ComboStat))
    (numCombos : Nat) (ticket_value : ℚ) (combo : List Int) : BetRecommendation :=
  let stats := lookupCombo combo_stats combo
  let hit_count : ℚ :=
    match stats with
    | some s => s.count
    | none => 0
  let smoothed_hit_rate := (hit_count + 1) / ((total_races : ℚ) + 1 * (numCombos : ℚ))
  let avg_payout : ℚ :=
    match stats with
    | some s => if 0 < s.count then s.total_return / s.count else globalAvgReturn combo_stats
    | none => globalAvgReturn combo_stats
  let expected_return_multiplier := (avg_payout / 100) * smoothed_hit_rate
  { combination := combo,
    hit_rate := smoothed_hit_rate,
    estimated_average_payout := avg_payout,
    expected_return_per_ticket := ticket_value * expected_return_multiplier,
    suggested_bet_amount := ticket_value }

/-- The unsorted recommendation list of `recommend_bets`, one entry per
candidate combination in enumeration order. -/
def candidateRecommendations (total_races : Nat)
    (combo_stats : List (List Int × ComboStat)) (horse_popularities : List Int)
    (budget num_tickets : Int) : List BetRecommendation :=
  let combos := candidateCombos horse_popularities
  combos.map
    (mkRecommendation total_races combo_stats combos.length
      ((budget : ℚ) / (num_tickets : ℚ)))

/-- Stable insertion for the descending sort of `list.sort(key=...,
reverse=True)`: walk past elements with strictly larger key, then sit in
front of the first element whose key is not larger. -/
def insDescBy {α : Type} (key : α → ℚ) (x : α) : List α → List α
  | [] => [x]
  | y :: ys => if key x < key y then y :: insDescBy key x ys else x :: y :: ys

/-- Python's stable descending sort by a rational key. -/
def sortDescBy {α : Type} (key : α → ℚ) (l : List α) : List α :=
  l.foldr (insDescBy key) []

/-- The recommendation list after the final `list.sort(key=...,
reverse=True)`. -/
def rankedRecommendations (total_races : Nat)
    (combo_stats : List (List Int × ComboStat)) (horse_popularities : List Int)
    (budget num_tickets : Int) : List BetRecommendation :=
  sortDescBy (fun b => b.expected_return_per_ticket)
    (candidateRecommendations total_races combo_stats horse_popularities budget
      num_tickets)

/-- `recommend_bets`: validate, fetch statistics, enumerate candidates,
score, sort descending by expected return and truncate. -/
def recommend_bets (f : Filters) (db : List Race) (horse_popularities : List Int)
    (budget num_tickets : Int) :
    Except AnalysisError (List BetRecommendation) :=
  if num_tickets ≤ 0 then .error .InvalidTicketCount
  else if budget ≤ 0 then .error .InvalidBudget
  else if horse_popularities.length < 3 then .error .InsufficientCandidates
  else
    match fetchTrifectaStatistics f db with
    | .error e => .error e
    | .ok (total_races, combo_stats) =>
        if candidateCombos horse_popularities = [] then
          .error .InsufficientCandidates
        else
          .ok ((rankedRecommendations total_races combo_stats horse_popularities
                  budget num_tickets).take
            (min num_tickets.toNat
              (rankedRecommendations total_races combo_stats horse_popularities
                  budget num_tickets).length))

/-- A CSV data row after the loaders' casts succeeded (`ingest_csv` casts
every numeric column with `int`/`float` and strips the strings, so a parsed
row carries no NULLs). -/
structure CsvRow where
  race_id : String
  date : String
  racecourse : String
  distance : Int
  track_condition : String
  num_runners : Int
  track_direction : String
  weather : String
  horse_number : Int
  horse_name : String
  popularity : Int
  finish_position : Int
  odds_win : ℚ
  odds_place : ℚ
  return_win : ℚ
  return_place : ℚ
deriving Repr, DecidableEq

/-- A stored `races` row (the descriptive columns written by ingestion). -/
structure RaceDbRow where
  race_id : String
  date : String
  racecourse : String
  distance : Int
  track_condition : String
  num_runners : Int
  track_direction : String
  weather : String
deriving Repr, DecidableEq

/-- A stored `race_entries` row (the columns written by ingestion; the
autoincrement surrogate id is not modelled because no claim observes it). -/
structure EntryDbRow where
  race_id : String
  horse_number : Int
  horse_name : String
  popularity : Int
  finish_position : Int
  odds_win : ℚ
  odds_place : ℚ
  return_win : ℚ
  return_place : ℚ
deriving Repr, DecidableEq

/-- The race record built from one CSV row in `ingest_csv`. -/
def raceRowOf (r : CsvRow) : RaceDbRow :=
  ⟨r.race_id, r.date, r.racecourse, r.distance, r.track_condition,
   r.num_runners, r.track_direction, r.weather⟩

/-- The entry record built from one CSV row in `ingest_csv`. -/
def entryRowOf (r : CsvRow) : EntryDbRow :=
  ⟨r.race_id, r.horse_number, r.horse_name, r.popularity, r.finish_position,
   r.odds_win, r.odds_place, r.return_win, r.return_place⟩

/-- Python dict assignment `race_records[race_id] = ...`: replace in place
when the key is present, else append. -/
def updateRaceRecords (acc : List RaceDbRow) (row : RaceDbRow) : List RaceDbRow :=
  match acc with
  | [] => [row]
  | x :: rest =>
      if x.race_id = row.race_id then row :: rest
      else x :: updateRaceRecords rest row

/-- The `race_records` dict of `ingest_csv`: one record per distinct
`race_id`, last row wins. -/
def raceRecordsOf (rows : List CsvRow) : List RaceDbRow :=
  rows.foldl (fun acc r => updateRaceRecords acc (raceRowOf r)) []

/-- The two tables of the SQLite store that ingestion writes. -/
structure Store where
  races : List RaceDbRow
  entries : List EntryDbRow
deriving Repr, DecidableEq

/-- SQLite `INSERT OR REPLACE` against a unique key: drop any existing row
with the same key, then insert the new row. -/
def upsertBy {α κ : Type} [DecidableEq κ] (key : α → κ) (tbl : List α) (row : α) :
    List α :=
  tbl.filter (fun t => key t ≠ key row) ++ [row]

/-- `executemany` of an `INSERT OR REPLACE` statement. -/
def bulkUpsert {α κ : Type} [DecidableEq κ] (key : α → κ) (tbl : List α)
    (rows : List α) : List α :=
  rows.foldl (upsertBy key) tbl

/-- The unique index `idx_entries_race_horse` on `(race_id, horse_number)`. -/
def entryKey (e : EntryDbRow) : String × Int :=
  (e.race_id, e.horse_number)

/-- `ingest_csv` after parsing: build the race dict and entry list, upsert
both tables, and report `(len(race_records), len(entry_records))`. -/
def ingest_csv (rows : List CsvRow) (store : Store) : (Nat × Nat) × Store :=
  let race_records := raceRecordsOf rows
  let entry_records := rows.map entryRowOf
  ((race_records.length, entry_records.length),
   { races := bulkUpsert (fun r => r.race_id) store.races race_records,
     entries := bulkUpsert entryKey store.entries entry_records })

/-- Per-rank aggregate of the single-selection statistics engine. -/
structure PopularityStatistic where
  bet_count : Nat
  race_count : Nat
  win_rate : ℚ
  avg_win_payout : ℚ
  expected_return_per_100 : ℚ
deriving Repr, DecidableEq

/-- The qualifying rows of the single-selection engine: every entry of a
race matching the filters, tagged with its race id. -/
def singleRows (f : Filters) (db : List Race) : List (String × EntryRow) :=
  (filteredRaces f db).flatMap (fun r => r.entries.map (fun e => (r.race_id, e)))

/-- Modelled from the spec: the single-selection statistics engine of §4.3
is absent from the sources (only the CLI's rendering of `horse_label` and
`popularity_rank` refers to its outputs), so its per-rank aggregation is
taken from the spec's words: bet count, distinct-race count, win rate as
the fraction of entries finishing 1st, average win payout, and expected
return per 100 currency units equal to the average win payout minus 100. -/
def rankStatistic (rows : List (String × EntryRow)) (rank : Int) :
    PopularityStatistic :=
  let mine := rows.filter (fun p => p.2.popularity = rank)
  let wins := (mine.filter (fun p => p.2.finish_position = 1)).length
  let avg := ((mine.map (fun p => p.2.return_win.getD 0)).sum) / (mine.length : ℚ)
  { bet_count := mine.length,
    race_count := ((mine.map (fun p => p.1)).dedup).length,
    win_rate := (wins : ℚ) / (mine.length : ℚ),
    avg_win_payout := avg,
    expected_return_per_100 := avg - 100 }

/-- Modelled from the spec: the single-selection statistics engine groups
the qualifying entries by popularity rank and fails with `NoMatchingData`
when no rows match the filter. -/
def singleSelectionStatistics (f : Filters) (db : List Race) :
    Except AnalysisError (List (Int × PopularityStatistic)) :=
  let rows := singleRows f db
  if rows = [] then .error .NoMatchingData
  else
    let ranks := (rows.map (fun p => p.2.popularity)).dedup
    .ok (ranks.map (fun p => (p, rankStatistic rows p)))

/-! Observation functions and characterization lemmas for the trio
statistics fold. -/

/-- Whether a race qualifies for the trio aggregation. -/
def raceQual (r : Race) : Bool :=
  raceQualifies (retrievedEntries r)

/-- Observed count of a combination, 0 when absent from the statistics. -/
def countOf (stats : List (List Int × ComboStat)) (key : List Int) : ℚ :=
  match lookupCombo stats key with
  | some s => s.count
  | none => 0

/-- Cumulative blended return of a combination, 0 when absent. -/
def returnOf (stats : List (List Int × ComboStat)) (key : List Int) : ℚ :=
  match lookupCombo stats key with
  | some s => s.total_return
  | none => 0

/-- Cumulative popularity sum of a combination, 0 when absent. -/
def popSumOf (stats : List (List Int × ComboStat)) (key : List Int) : ℚ :=
  match lookupCombo stats key with
  | some s => s.total_popularity_sum
  | none => 0

/-- The filtered races that qualify for the trio aggregation. -/
def qualRaces (f : Filters) (db : List Race) : List Race :=
  (filteredRaces f db).filter raceQual

/-- The qualifying races whose sorted popularity triple is `key`. -/
def qualRacesWith (f : Filters) (db : List Race) (key : List Int) : List Race :=
  (qualRaces f db).filter (fun r => comboKey (retrievedEntries r) = key)

theorem lookupCombo_updateCombo_self (stats : List (List Int × ComboStat))
    (key : List Int) (ret popSum : ℚ) :
    lookupCombo (updateCombo stats key ret popSum) key =
      some (match lookupCombo stats key with
            | some s => ⟨s.count + 1, s.total_return + ret, s.total_popularity_sum + popSum⟩
            | none => ⟨1, ret, popSum⟩) := by
  induction stats with
  | nil => simp [lookupCombo, updateCombo, List.find?]
  | cons p rest ih =>
      obtain ⟨k, s⟩ := p
      by_cases hk : k = key
      · subst hk
        simp [lookupCombo, updateCombo, List.find?]
      · simpa [lookupCombo, updateCombo, List.find?, hk] using ih

theorem lookupCombo_updateCombo_ne (stats : List (List Int × ComboStat))
    (key k2 : List Int) (ret popSum : ℚ) (h : k2 ≠ key) :
    lookupCombo (updateCombo stats key ret popSum) k2 = lookupCombo stats k2 := by
  induction stats with
  | nil => simp [lookupCombo, updateCombo, List.find?, Ne.symm h]
  | cons p rest ih =>
      obtain ⟨k, s⟩ := p
      by_cases hk : k = key
      · subst hk
        simp [lookupCombo, updateCombo, List.find?, Ne.symm h]
      · by_cases hk2 : k = k2
        · subst hk2
          simp [lookupCombo, updateCombo, List.find?, hk]
        · simpa [lookupCombo, updateCombo, List.find?, hk, hk2] using ih

theorem countOf_updateCombo_self (stats : List (List Int × ComboStat))
    (key : List Int) (ret popSum : ℚ) :
    countOf (updateCombo stats key ret popSum) key = countOf stats key + 1 := by
  unfold countOf
  rw [lookupCombo_updateCombo_self]
  cases lookupCombo stats key <;> simp

theorem returnOf_updateCombo_self (stats : List (List Int × ComboStat))
    (key : List Int) (ret popSum : ℚ) :
    returnOf (updateCombo stats key ret popSum) key = returnOf stats key + ret := by
  unfold returnOf
  rw [lookupCombo_updateCombo_self]
  cases lookupCombo stats key <;> simp

theorem popSumOf_updateCombo_self (stats : List (List Int × ComboStat))
    (key : List Int) (ret popSum : ℚ) :
    popSumOf (updateCombo stats key ret popSum) key = popSumOf stats key + popSum := by
  unfold popSumOf
  rw [lookupCombo_updateCombo_self]
  cases lookupCombo stats key <;> simp

theorem countOf_updateCombo_ne (stats : List (List Int × ComboStat))
    (key k2 : List Int) (ret popSum : ℚ) (h : k2 ≠ key) :
    countOf (updateCombo stats key ret popSum) k2 = countOf stats k2 := by
  unfold countOf
  rw [lookupCombo_updateCombo_ne stats key k2 ret popSum h]

theorem returnOf_updateCombo_ne (stats : List (List Int × ComboStat))
    (key k2 : List Int) (ret popSum : ℚ) (h : k2 ≠ key) :
    returnOf (updateCombo stats key ret popSum) k2 = returnOf stats k2 := by
  unfold returnOf
  rw [lookupCombo_updateCombo_ne stats key k2 ret popSum h]

theorem popSumOf_updateCombo_ne (stats : List (List Int × ComboStat))
    (key k2 : List Int) (ret popSum : ℚ) (h : k2 ≠ key) :
    popSumOf (updateCombo stats key ret popSum) k2 = popSumOf stats k2 := by
  unfold popSumOf
  rw [lookupCombo_updateCombo_ne stats key k2 ret popSum h]

theorem flushRace_pos (st : TrioState) (r : Race) (h : raceQual r = true) :
    flushRace st (retrievedEntries r) =
      { total_races := st.total_races + 1,
        combo_stats :=
          updateCombo st.combo_stats (comboKey (retrievedEntries r))
            (blendedReturn (retrievedEntries r))
            (popularitySum (retrievedEntries r)) } := by
  unfold flushRace
  rw [if_pos]
  simpa [raceQual] using h

theorem flushRace_neg (st : TrioState) (r : Race) (h : ¬ raceQual r = true) :
    flushRace st (retrievedEntries r) = st := by
  unfold flushRace
  rw [if_neg]
  simpa [raceQual] using h

theorem foldFlush_total (races : List Race) : ∀ st : TrioState,
    (races.foldl (fun st r => flushRace st (retrievedEntries r)) st).total_races =
      st.total_races + (races.filter raceQual).length := by
  induction races with
  | nil => intro st; simp
  | cons r rest ih =>
      intro st
      by_cases hq : raceQual r
      · rw [List.foldl_cons, List.filter_cons_of_pos hq, flushRace_pos st r hq, ih]
        simp
        omega
      · rw [List.foldl_cons, List.filter_cons_of_neg hq, flushRace_neg st r hq, ih]

theorem foldFlush_count (races : List Race) : ∀ (st : TrioState) (key : List Int),
    countOf (races.foldl (fun st r => flushRace st (retrievedEntries r)) st).combo_stats key =
      countOf st.combo_stats key +
        (((races.filter raceQual).filter
            (fun r => comboKey (retrievedEntries r) = key)).length : ℚ) := by
  induction races with
  | nil => intro st key; simp
  | cons r rest ih =>
      intro st key
      rw [List.foldl_cons]
      by_cases hq : raceQual r
      · rw [List.filter_cons_of_pos hq, flushRace_pos st r hq, ih]
        by_cases hk : comboKey (retrievedEntries r) = key
        · rw [List.filter_cons_of_pos (by simpa using hk)]
          subst hk
          rw [countOf_updateCombo_self]
          simp [List.length_cons]
          ring
        · rw [List.filter_cons_of_neg (by simpa using hk)]
          rw [countOf_updateCombo_ne _ _ _ _ _ (fun h => hk h.symm)]
      · rw [List.filter_cons_of_neg hq, flushRace_neg st r hq, ih]

theorem foldFlush_return (races : List Race) : ∀ (st : TrioState) (key : List Int),
    returnOf (races.foldl (fun st r => flushRace st (retrievedEntries r)) st).combo_stats key =
      returnOf st.combo_stats key +
        (((races.filter raceQual).filter
            (fun r => comboKey (retrievedEntries r) = key)).map
          (fun r => blendedReturn (retrievedEntries r))).sum := by
  induction races with
  | nil => intro st key; simp
  | cons r rest ih =>
      intro st key
      rw [List.foldl_cons]
      by_cases hq : raceQual r
      · rw [List.filter_cons_of_pos hq, flushRace_pos st r hq, ih]
        by_cases hk : comboKey (retrievedEntries r) = key
        · rw [List.filter_cons_of_pos (by simpa using hk)]
          subst hk
          rw [returnOf_updateCombo_self]
          simp [List.map_cons, List.sum_cons]
          ring
        · rw [List.filter_cons_of_neg (by simpa using hk)]
          rw [returnOf_updateCombo_ne _ _ _ _ _ (fun h => hk h.symm)]
      · rw [List.filter_cons_of_neg hq, flushRace_neg st r hq, ih]

theorem foldFlush_popSum (races : List Race) : ∀ (st : TrioState) (key : List Int),
    popSumOf (races.foldl (fun st r => flushRace st (retrievedEntries r)) st).combo_stats key =
      popSumOf st.combo_stats key +
        (((races.filter raceQual).filter
            (fun r => comboKey (retrievedEntries r) = key)).map
          (fun r => popularitySum (retrievedEntries r))).sum := by
  induction races with
  | nil => intro st key; simp
  | cons r rest ih =>
      intro st key
      rw [List.foldl_cons]
      by_cases hq : raceQual r
      · rw [List.filter_cons_of_pos hq, flushRace_pos st r hq, ih]
        by_cases hk : comboKey (retrievedEntries r) = key
        · rw [List.filter_cons_of_pos (by simpa using hk)]
          subst hk
          rw [popSumOf_updateCombo_self]
          simp [List.map_cons, List.sum_cons]
          ring
        · rw [List.filter_cons_of_neg (by simpa using hk)]
          rw [popSumOf_updateCombo_ne _ _ _ _ _ (fun h => hk h.symm)]
      · rw [List.filter_cons_of_neg hq, flushRace_neg st r hq, ih]

theorem updateCombo_count_ge_one (stats : List (List Int × ComboStat))
    (key : List Int) (ret popSum : ℚ)
    (h : ∀ p ∈ stats, 1 ≤ p.2.count) :
    ∀ p ∈ updateCombo stats key ret popSum, 1 ≤ p.2.count := by
  induction stats with
  | nil =>
      intro p hp
      simp [updateCombo] at hp
      subst hp
      norm_num
  | cons q rest ih =>
      obtain ⟨k, s⟩ := q
      intro p hp
      by_cases hk : k = key
      · subst hk
        simp [updateCombo] at hp
        rcases hp with hp | hp
        · subst hp
          have := h (k, s) (by simp)
          simp at this ⊢
          linarith
        · exact h p (by simp [hp])
      · simp [updateCombo, hk] at hp
        rcases hp with hp | hp
        · subst hp
          exact h (k, s) (by simp)
        · exact ih (fun q hq => h q (by simp [hq])) p hp

theorem foldFlush_counts_ge_one (races : List Race) : ∀ st : TrioState,
    (∀ p ∈ st.combo_stats, 1 ≤ p.2.count) →
    ∀ p ∈ (races.foldl (fun st r => flushRace st (retrievedEntries r)) st).combo_stats,
      1 ≤ p.2.count := by
  induction races with
  | nil => intro st h; simpa using h
  | cons r rest ih =>
      intro st h
      rw [List.foldl_cons]
      by_cases hq : raceQual r
      · rw [flushRace_pos st r hq]
        exact ih _ (updateCombo_count_ge_one _ _ _ _ h)
      · rw [flushRace_neg st r hq]
        exact ih _ h

theorem lookupCombo_mem (stats : List (List Int × ComboStat)) (key : List Int)
    (s : ComboStat) (h : lookupCombo stats key = some s) : (key, s) ∈ stats := by
  unfold lookupCombo at h
  rcases Option.map_eq_some'.mp h with ⟨p, hfind, hsnd⟩
  have hpred := List.find?_some hfind
  have hmem := List.mem_of_find?_eq_some hfind
  obtain ⟨k, v⟩ := p
  simp at hpred hsnd
  subst hpred
  subst hsnd
  exact hmem

/-- Elimination form of a successful `_fetch_trifecta_statistics` run. -/
theorem fetch_ok_elim (f : Filters) (db : List Race) (total : Nat)
    (stats : List (List Int × ComboStat))
    (h : fetchTrifectaStatistics f db = .ok (total, stats)) :
    (¬ (filteredRaces f db).all (fun r => retrievedEntries r = []) = true) ∧
      (trioFold (filteredRaces f db)).total_races = total ∧
      (trioFold (filteredRaces f db)).combo_stats = stats ∧ total ≠ 0 := by
  unfold fetchTrifectaStatistics at h
  split_ifs at h with h1 h2
  simp only [Except.ok.injEq, Prod.mk.injEq] at h
  exact ⟨h1, h.1, h.2, h.1 ▸ h2⟩

/-- Characterization of a successful trio statistics run: the total is the
number of qualifying filtered races, and each combination's accumulators
are the count, blended-return sum and popularity sum over the qualifying
races carrying that combination. -/
theorem fetch_ok_characterization (f : Filters) (db : List Race) (total : Nat)
    (stats : List (List Int × ComboStat))
    (h : fetchTrifectaStatistics f db = .ok (total, stats)) :
    total = (qualRaces f db).length ∧
      ∀ key : List Int,
        countOf stats key = ((qualRacesWith f db key).length : ℚ) ∧
        returnOf stats key =
          ((qualRacesWith f db key).map (fun r => blendedReturn (retrievedEntries r))).sum ∧
        popSumOf stats key =
          ((qualRacesWith f db key).map (fun r => popularitySum (retrievedEntries r))).sum := by
  obtain ⟨-, htotal, hstats, -⟩ := fetch_ok_elim f db total stats h
  constructor
  · rw [← htotal]
    unfold trioFold
    rw [foldFlush_total]
    simp [qualRaces]
  · intro key
    refine ⟨?_, ?_, ?_⟩
    · rw [← hstats]
      unfold trioFold
      rw [foldFlush_count]
      simp [countOf, lookupCombo, List.find?, qualRacesWith, qualRaces]
    · rw [← hstats]
      unfold trioFold
      rw [foldFlush_return]
      simp [returnOf, lookupCombo, List.find?, qualRacesWith, qualRaces]
    · rw [← hstats]
      unfold trioFold
      rw [foldFlush_popSum]
      simp [popSumOf, lookupCombo, List.find?, qualRacesWith, qualRaces]

/-- Every combination recorded by a successful run was observed at least
once. -/
theorem fetch_ok_counts_ge_one (f : Filters) (db : List Race) (total : Nat)
    (stats : List (List Int × ComboStat))
    (h : fetchTrifectaStatistics f db = .ok (total, stats)) :
    ∀ p ∈ stats, 1 ≤ p.2.count := by
  obtain ⟨-, -, hstats, -⟩ := fetch_ok_elim f db total stats h
  rw [← hstats]
  exact foldFlush_counts_ge_one _ _ (by simp [TrioState.combo_stats])

/-! Properties of the stable descending insertion sort. -/

theorem insDescBy_perm {α : Type} (key : α → ℚ) (x : α) (l : List α) :
    (insDescBy key x l).Perm (x :: l) := by
  induction l with
  | nil => simp [insDescBy]
  | cons y ys ih =>
      unfold insDescBy
      by_cases hc : key x < key y
      · rw [if_pos hc]
        exact (ih.cons y).trans (List.Perm.swap x y ys)
      · rw [if_neg hc]

theorem sortDescBy_perm {α : Type} (key : α → ℚ) (l : List α) :
    (sortDescBy key l).Perm l := by
  induction l with
  | nil => simp [sortDescBy]
  | cons x xs ih =>
      have : sortDescBy key (x :: xs) = insDescBy key x (sortDescBy key xs) := rfl
      rw [this]
      exact (insDescBy_perm key x (sortDescBy key xs)).trans (ih.cons x)

theorem insDescBy_pairwise {α : Type} (key : α → ℚ) (x : α) (l : List α)
    (h : l.Pairwise (fun a b => key b ≤ key a)) :
    (insDescBy key x l).Pairwise (fun a b => key b ≤ key a) := by
  induction l with
  | nil => simp [insDescBy]
  | cons y ys ih =>
      unfold insDescBy
      rcases List.pairwise_cons.mp h with ⟨hy, hys⟩
      by_cases hc : key x < key y
      · rw [if_pos hc]
        refine List.pairwise_cons.mpr ⟨?_, ih hys⟩
        intro z hz
        have hz2 := (insDescBy_perm key x ys).mem_iff.mp hz
        rcases List.mem_cons.mp hz2 with hz3 | hz3
        · subst hz3
          exact le_of_lt hc
        · exact hy z hz3
      · rw [if_neg hc]
        refine List.pairwise_cons.mpr ⟨?_, h⟩
        intro z hz
        rcases List.mem_cons.mp hz with hz3 | hz3
        · subst hz3
          exact le_of_not_lt hc
        · exact le_trans (hy z hz3) (le_of_not_lt hc)

theorem sortDescBy_pairwise {α : Type} (key : α → ℚ) (l : List α) :
    (sortDescBy key l).Pairwise (fun a b => key b ≤ key a) := by
  induction l with
  | nil => simp [sortDescBy]
  | cons x xs ih => exact insDescBy_pairwise key x (sortDescBy key xs) ih

theorem insDescBy_filter {α : Type} (key : α → ℚ) (x : α) (l : List α) (v : ℚ) :
    (insDescBy key x l).filter (fun a => key a = v) =
      if key x = v then x :: l.filter (fun a => key a = v)
      else l.filter (fun a => key a = v) := by
  induction l with
  | nil =>
      by_cases hv : key x = v
      · simp [insDescBy, hv]
      · simp [insDescBy, hv]
  | cons y ys ih =>
      unfold insDescBy
      by_cases hc : key x < key y
      · rw [if_pos hc]
        by_cases hy : key y = v
        · have hx : ¬ key x = v := by
            intro hx
            rw [hx, ← hy] at hc
            exact lt_irrefl _ hc
          rw [if_neg hx]
          rw [List.filter_cons_of_pos (by simpa using hy),
            List.filter_cons_of_pos (by simpa using hy)]
          rw [ih, if_neg hx]
        · rw [List.filter_cons_of_neg (by simpa using hy),
            List.filter_cons_of_neg (by simpa using hy)]
          exact ih
      · rw [if_neg hc]
        by_cases hx : key x = v
        · rw [if_pos hx, List.filter_cons_of_pos (by simpa using hx)]
        · rw [if_neg hx, List.filter_cons_of_neg (by simpa using hx)]

theorem sortDescBy_filter {α : Type} (key : α → ℚ) (l : List α) (v : ℚ) :
    (sortDescBy key l).filter (fun a => key a = v) =
      l.filter (fun a => key a = v) := by
  induction l with
  | nil => simp [sortDescBy]
  | cons x xs ih =>
      have hstep : sortDescBy key (x :: xs) = insDescBy key x (sortDescBy key xs) := rfl
      rw [hstep, insDescBy_filter]
      by_cases hx : key x = v
      · rw [if_pos hx, List.filter_cons_of_pos (by simpa using hx), ih]
      · rw [if_neg hx, List.filter_cons_of_neg (by simpa using hx), ih]

/-! Properties of the combination enumeration and the ascending sort. -/

theorem insAsc_perm (x : Int) (l : List Int) : (insAsc x l).Perm (x :: l) := by
  induction l with
  | nil => simp [insAsc]
  | cons y ys ih =>
      unfold insAsc
      by_cases hc : y < x
      · rw [if_pos hc]
        exact (ih.cons y).trans (List.Perm.swap x y ys)
      · rw [if_neg hc]

theorem sortAsc_perm (l : List Int) : (sortAsc l).Perm l := by
  induction l with
  | nil => simp [sortAsc]
  | cons x xs ih =>
      have : sortAsc (x :: xs) = insAsc x (sortAsc xs) := rfl
      rw [this]
      exact (insAsc_perm x (sortAsc xs)).trans (ih.cons x)

theorem combinations2_eq_nil_iff (l : List Int) :
    combinations2 l = [] ↔ l.length < 2 := by
  induction l with
  | nil => simp [combinations2]
  | cons x xs ih =>
      simp only [combinations2, List.append_eq_nil, List.map_eq_nil_iff, ih,
        List.length_cons]
      constructor
      · rintro ⟨h1, -⟩
        simp [h1]
      · intro h
        have : xs = [] := by
          cases xs with
          | nil => rfl
          | cons a b => simp only [List.length_cons] at h; omega
        subst this
        simp [combinations2]


theorem combinations3_eq_nil_iff (l : List Int) :
    combinations3 l = [] ↔ l.length < 3 := by
  induction l with
  | nil => simp [combinations3]
  | cons x xs ih =>
      simp only [combinations3, List.append_eq_nil, List.map_eq_nil_iff,
        combinations2_eq_nil_iff, ih, List.length_cons]
      omega


/-! Elimination lemmas for the ranker. -/

/-- The spec's wording of the global fallback: the mean over all observed
combinations of their average payouts, or 100.0 when none was observed. -/
def specFallback (stats : List (List Int × ComboStat)) : ℚ :=
  if stats = [] then 100
  else ((stats.map (fun p => p.2.total_return / p.2.count)).sum) / (stats.length : ℚ)

theorem globalAvgReturn_eq (stats : List (List Int × ComboStat))
    (hcnt : ∀ p ∈ stats, 1 ≤ p.2.count) :
    globalAvgReturn stats = specFallback stats := by
  unfold globalAvgReturn specFallback
  by_cases h : stats = []
  · simp [h]
  · have hfilter : stats.filter (fun p => 0 < p.2.count) = stats := by
      rw [List.filter_eq_self]
      intro p hp
      have := hcnt p hp
      simp
      linarith
    rw [if_pos h, if_neg h, hfilter]
    simp only [List.length_map]

theorem mkRecommendation_combination (total : Nat)
    (stats : List (List Int × ComboStat)) (n : Nat) (tv : ℚ) (combo : List Int) :
    (mkRecommendation total stats n tv combo).combination = combo := rfl

theorem mkRecommendation_suggested (total : Nat)
    (stats : List (List Int × ComboStat)) (n : Nat) (tv : ℚ) (combo : List Int) :
    (mkRecommendation total stats n tv combo).suggested_bet_amount = tv := rfl

theorem mkRecommendation_hit_rate (total : Nat)
    (stats : List (List Int × ComboStat)) (n : Nat) (tv : ℚ) (combo : List Int) :
    (mkRecommendation total stats n tv combo).hit_rate =
      (countOf stats combo + 1) / ((total : ℚ) + 1 * (n : ℚ)) := by
  unfold mkRecommendation countOf
  cases lookupCombo stats combo <;> rfl

theorem mkRecommendation_payout (total : Nat)
    (stats : List (List Int × ComboStat)) (n : Nat) (tv : ℚ) (combo : List Int)
    (hcnt : ∀ p ∈ stats, 1 ≤ p.2.count) :
    (mkRecommendation total stats n tv combo).estimated_average_payout =
      if 0 < countOf stats combo then returnOf stats combo / countOf stats combo
      else specFallback stats := by
  unfold mkRecommendation countOf returnOf
  cases hl : lookupCombo stats combo with
  | none =>
      simp only []
      rw [if_neg (by norm_num)]
      exact globalAvgReturn_eq stats hcnt
  | some s =>
      simp only []
      by_cases hs : 0 < s.count
      · rw [if_pos hs, if_pos hs]
      · rw [if_neg hs, if_neg hs]
        exact globalAvgReturn_eq stats hcnt

theorem mkRecommendation_expected (total : Nat)
    (stats : List (List Int × ComboStat)) (n : Nat) (tv : ℚ) (combo : List Int) :
    (mkRecommendation total stats n tv combo).expected_return_per_ticket =
      tv * ((mkRecommendation total stats n tv combo).estimated_average_payout / 100) *
        (mkRecommendation total stats n tv combo).hit_rate := by
  unfold mkRecommendation
  cases lookupCombo stats combo <;> (simp only []; ring)

/-- Elimination form of a successful `recommend_bets` run. -/
theorem recommend_bets_ok_elim (f : Filters) (db : List Race)
    (pops : List Int) (budget tickets : Int) (out : List BetRecommendation)
    (h : recommend_bets f db pops budget tickets = .ok out) :
    0 < tickets ∧ 0 < budget ∧ 3 ≤ pops.length ∧
      ∃ total stats, fetchTrifectaStatistics f db = .ok (total, stats) ∧
        candidateCombos pops ≠ [] ∧
        out = (rankedRecommendations total stats pops budget tickets).take
          (min tickets.toNat
            (rankedRecommendations total stats pops budget tickets).length) := by
  unfold recommend_bets at h
  cases hfetch : fetchTrifectaStatistics f db with
  | error e =>
      rw [hfetch] at h
      split_ifs at h
  | ok p =>
      obtain ⟨total, stats⟩ := p
      rw [hfetch] at h
      simp only [] at h
      split_ifs at h with h1 h2 h3 h4
      simp only [Except.ok.injEq] at h
      exact ⟨not_le.mp h1, not_le.mp h2, not_lt.mp h3,
        total, stats, rfl, h4, h.symm⟩

theorem countOf_nonneg (f : Filters) (db : List Race) (total : Nat)
    (stats : List (List Int × ComboStat))
    (h : fetchTrifectaStatistics f db = .ok (total, stats)) (key : List Int) :
    0 ≤ countOf stats key := by
  rw [((fetch_ok_characterization f db total stats h).2 key).1]
  positivity

theorem countOf_le_total (f : Filters) (db : List Race) (total : Nat)
    (stats : List (List Int × ComboStat))
    (h : fetchTrifectaStatistics f db = .ok (total, stats)) (key : List Int) :
    countOf stats key ≤ (total : ℚ) := by
  obtain ⟨htotal, hkey⟩ := fetch_ok_characterization f db total stats h
  rw [(hkey key).1, htotal]
  exact_mod_cast List.length_filter_le _ _

theorem candidateCombos_eq_nil_iff (pops : List Int) :
    candidateCombos pops = [] ↔ pops.dedup.length < 3 := by
  unfold candidateCombos
  rw [combinations3_eq_nil_iff, (sortAsc_perm pops.dedup).length_eq]

theorem length_candidateRecommendations (total : Nat)
    (stats : List (List Int × ComboStat)) (pops : List Int) (budget tickets : Int) :
    (candidateRecommendations total stats pops budget tickets).length =
      (candidateCombos pops).length := by
  unfold candidateRecommendations
  simp

theorem mem_candidateRecommendations (total : Nat)
    (stats : List (List Int × ComboStat)) (pops : List Int) (budget tickets : Int)
    (b : BetRecommendation)
    (hb : b ∈ candidateRecommendations total stats pops budget tickets) :
    ∃ combo ∈ candidateCombos pops,
      b = mkRecommendation total stats (candidateCombos pops).length
            ((budget : ℚ) / (tickets : ℚ)) combo := by
  unfold candidateRecommendations at hb
  rcases List.mem_map.mp hb with ⟨combo, hc, hmk⟩
  exact ⟨combo, hc, hmk.symm⟩

/-- Every returned recommendation is one of the per-combination
recommendations. -/
theorem recommend_bets_out_mem (f : Filters) (db : List Race)
    (pops : List Int) (budget tickets : Int) (out : List BetRecommendation)
    (total : Nat) (stats : List (List Int × ComboStat))
    (hfetch : fetchTrifectaStatistics f db = .ok (total, stats))
    (h : recommend_bets f db pops budget tickets = .ok out)
    (b : BetRecommendation) (hb : b ∈ out) :
    ∃ combo ∈ candidateCombos pops,
      b = mkRecommendation total stats (candidateCombos pops).length
            ((budget : ℚ) / (tickets : ℚ)) combo := by
  obtain ⟨-, -, -, total2, stats2, hfetch2, -, hout⟩ :=
    recommend_bets_ok_elim f db pops budget tickets out h
  rw [hfetch] at hfetch2
  simp only [Except.ok.injEq, Prod.mk.injEq] at hfetch2
  obtain ⟨ht, hs⟩ := hfetch2
  subst ht
  subst hs
  rw [hout] at hb
  have hb2 := List.mem_of_mem_take hb
  unfold rankedRecommendations at hb2
  have hb3 := (sortDescBy_perm (fun b : BetRecommendation => b.expected_return_per_ticket) _).mem_iff.mp hb2
  exact mem_candidateRecommendations total stats pops budget tickets b hb3

/-! Preservation of the unique-key invariants under upserts. -/

theorem upsertBy_nodup {α κ : Type} [DecidableEq κ] (key : α → κ) (tbl : List α)
    (row : α) (h : (tbl.map key).Nodup) : ((upsertBy key tbl row).map key).Nodup := by
  unfold upsertBy
  rw [List.map_append, List.nodup_append]
  refine ⟨?_, by simp, ?_⟩
  · exact h.sublist ((List.filter_sublist tbl).map key)
  · intro a ha
    rcases List.mem_map.mp ha with ⟨t, htmem, hkey⟩
    have := List.of_mem_filter htmem
    simp only [List.map_cons, List.map_nil, List.mem_singleton]
    intro hcontra
    rw [hcontra] at hkey
    simp at this
    exact this hkey

theorem bulkUpsert_nodup {α κ : Type} [DecidableEq κ] (key : α → κ)
    (rows : List α) : ∀ tbl : List α, (tbl.map key).Nodup →
    ((bulkUpsert key tbl rows).map key).Nodup := by
  induction rows with
  | nil => intro tbl h; simpa [bulkUpsert] using h
  | cons r rest ih =>
      intro tbl h
      have hstep : bulkUpsert key tbl (r :: rest) = bulkUpsert key (upsertBy key tbl r) rest := rfl
      rw [hstep]
      exact ih _ (upsertBy_nodup key tbl r h)

/-! NULL-payout handling: replacing missing payouts by explicit zeros. -/

/-- An entry with its NULL payouts replaced by explicit 0.0 values. -/
def zeroPayouts (e : EntryRow) : EntryRow :=
  ⟨e.popularity, e.finish_position, some (e.return_win.getD 0), some (e.return_place.getD 0)⟩

/-- A race with every entry's NULL payouts replaced by explicit zeros. -/
def zeroRace (r : Race) : Race :=
  ⟨r.race_id, r.meta, r.entries.map zeroPayouts⟩

theorem retrievedEntries_zeroRace (r : Race) :
    retrievedEntries (zeroRace r) = (retrievedEntries r).map zeroPayouts := by
  unfold retrievedEntries zeroRace zeroPayouts
  induction r.entries with
  | nil => simp
  | cons e es ih =>
      by_cases he : e.finish_position ≤ 3
      · simp only [List.map_cons]
        rw [List.filter_cons_of_pos (by simpa using he),
          List.filter_cons_of_pos (by simpa using he)]
        simp only [List.map_cons]
        rw [ih]
      · simp only [List.map_cons]
        rw [List.filter_cons_of_neg (by simpa using he),
          List.filter_cons_of_neg (by simpa using he)]
        exact ih

theorem map_popularity_zeroPayouts (es : List EntryRow) :
    (es.map zeroPayouts).map (fun e => e.popularity) = es.map (fun e => e.popularity) := by
  rw [List.map_map]
  rfl

theorem raceQualifies_map_zeroPayouts (es : List EntryRow) :
    raceQualifies (es.map zeroPayouts) = raceQualifies es := by
  unfold raceQualifies
  rw [List.length_map, map_popularity_zeroPayouts]

theorem comboKey_map_zeroPayouts (es : List EntryRow) :
    comboKey (es.map zeroPayouts) = comboKey es := by
  unfold comboKey
  rw [map_popularity_zeroPayouts]

theorem popularitySum_map_zeroPayouts (es : List EntryRow) :
    popularitySum (es.map zeroPayouts) = popularitySum es := by
  unfold popularitySum
  simp only [List.map_map]
  congr 1

theorem blendedReturn_map_zeroPayouts (es : List EntryRow) :
    blendedReturn (es.map zeroPayouts) = blendedReturn es := by
  unfold blendedReturn
  suffices hgen : ∀ acc : ℚ,
      (es.map zeroPayouts).foldl
        (fun acc e =>
          let acc2 := acc + (e.return_place.getD 0)
          if e.finish_position = 1 then acc2 + (e.return_win.getD 0) else acc2) acc =
      es.foldl
        (fun acc e =>
          let acc2 := acc + (e.return_place.getD 0)
          if e.finish_position = 1 then acc2 + (e.return_win.getD 0) else acc2) acc by
    exact hgen 0
  induction es with
  | nil => intro acc; simp
  | cons e rest ih =>
      intro acc
      simp only [List.map_cons, List.foldl_cons]
      rw [ih]
      rfl

theorem flushRace_zeroRace (st : TrioState) (r : Race) :
    flushRace st (retrievedEntries (zeroRace r)) = flushRace st (retrievedEntries r) := by
  rw [retrievedEntries_zeroRace]
  unfold flushRace
  rw [raceQualifies_map_zeroPayouts, comboKey_map_zeroPayouts,
    blendedReturn_map_zeroPayouts, popularitySum_map_zeroPayouts]

theorem filteredRaces_map_zeroRace (f : Filters) (db : List Race) :
    filteredRaces f (db.map zeroRace) = (filteredRaces f db).map zeroRace := by
  unfold filteredRaces
  induction db with
  | nil => simp
  | cons r rest ih =>
      by_cases hm : matchesFilters f r.meta
      · simp only [List.map_cons]
        rw [List.filter_cons_of_pos (by simpa [zeroRace] using hm),
          List.filter_cons_of_pos (by simpa using hm)]
        simp only [List.map_cons]
        rw [ih]
      · simp only [List.map_cons]
        rw [List.filter_cons_of_neg (by simpa [zeroRace] using hm),
          List.filter_cons_of_neg (by simpa using hm)]
        exact ih

theorem trioFold_map_zeroRace (races : List Race) : ∀ st : TrioState,
    (races.map zeroRace).foldl (fun st r => flushRace st (retrievedEntries r)) st =
      races.foldl (fun st r => flushRace st (retrievedEntries r)) st := by
  induction races with
  | nil => intro st; simp
  | cons r rest ih =>
      intro st
      simp only [List.map_cons, List.foldl_cons]
      rw [flushRace_zeroRace, ih]

/-! Concrete store contents used to exercise the theorems. -/

/-- Winner entry: popularity 1, finished 1st, win payout 300, place 110. -/
def exEntry1 : EntryRow := ⟨1, 1, some 300, some 110⟩

/-- Runner-up: popularity 2, finished 2nd, place payout 120. -/
def exEntry2 : EntryRow := ⟨2, 2, some 0, some 120⟩

/-- Third place: popularity 3, NULL win payout, place payout 130. -/
def exEntry3 : EntryRow := ⟨3, 3, none, some 130⟩

/-- An entry that finished 0th: retrieved by the `<= 3` filter. -/
def exEntry0 : EntryRow := ⟨4, 0, some 0, some 0⟩

/-- Race metadata shared by the example races. -/
def exMeta : RaceMeta := ⟨"tokyo", 1600, "good", 16, "left", "sunny"⟩

/-- A clean race: exactly the three podium entries. -/
def exRace : Race := ⟨"R1", exMeta, [exEntry1, exEntry2, exEntry3]⟩

/-- A race with a spurious finish-position-0 entry next to a full podium. -/
def cxRace : Race := ⟨"R2", exMeta, [exEntry0, exEntry1, exEntry2, exEntry3]⟩

theorem flatMap_retrievedEntries_eq_nil_iff (races : List Race) :
    races.flatMap retrievedEntries = [] ↔
      races.all (fun r => retrievedEntries r = []) = true := by
  induction races with
  | nil => simp
  | cons r rest ih =>
      simp only [List.flatMap_cons, List.append_eq_nil, List.all_cons,
        Bool.and_eq_true, decide_eq_true_eq, ih]

/-! Claim theorems. -/

/-- C10: a retrieved top-three entry with a NULL place or win payout does
not make the trio aggregation fail: the missing payout reads as 0.0 in the
blended return, the race's qualification is unchanged, and the whole
statistics run gives identical results when NULL payouts are replaced by
explicit zeros. -/
theorem C10_null_payouts_are_zero (f : Filters) (db : List Race)
    (es : List EntryRow) :
    fetchTrifectaStatistics f (db.map zeroRace) = fetchTrifectaStatistics f db ∧
    blendedReturn (es.map zeroPayouts) = blendedReturn es ∧
    raceQualifies (es.map zeroPayouts) = raceQualifies es := by
  refine ⟨?_, blendedReturn_map_zeroPayouts es, raceQualifies_map_zeroPayouts es⟩
  have hall : ((filteredRaces f db).map zeroRace).all (fun r => retrievedEntries r = []) =
      (filteredRaces f db).all (fun r => retrievedEntries r = []) := by
    induction (filteredRaces f db) with
    | nil => rfl
    | cons r rest ih =>
        simp only [List.map_cons, List.all_cons, ih]
        have : (decide (retrievedEntries (zeroRace r) = []) : Bool) =
            decide (retrievedEntries r = []) := by
          apply decide_eq_decide.mpr
          rw [retrievedEntries_zeroRace]
          exact List.map_eq_nil_iff
        rw [this]
  have htf : trioFold ((filteredRaces f db).map zeroRace) = trioFold (filteredRaces f db) := by
    unfold trioFold
    exact trioFold_map_zeroRace _ _
  unfold fetchTrifectaStatistics
  rw [filteredRaces_map_zeroRace, hall, htf]

/-- C6: the trio statistics engine fails with NoMatchingData exactly when
the query retrieves zero rows, fails with IncompleteHistoricalData exactly
when rows exist but no race qualifies, and otherwise returns the qualifying
race count together with the combination statistics without error. -/
theorem C6_trio_failure_conditions (f : Filters) (db : List Race) :
    (fetchTrifectaStatistics f db = .error .NoMatchingData ↔
      (filteredRaces f db).flatMap retrievedEntries = []) ∧
    (fetchTrifectaStatistics f db = .error .IncompleteHistoricalData ↔
      ((filteredRaces f db).flatMap retrievedEntries ≠ [] ∧ qualRaces f db = [])) ∧
    ((filteredRaces f db).flatMap retrievedEntries ≠ [] → qualRaces f db ≠ [] →
      fetchTrifectaStatistics f db =
        .ok ((qualRaces f db).length, (trioFold (filteredRaces f db)).combo_stats)) := by
  have hnil := flatMap_retrievedEntries_eq_nil_iff (filteredRaces f db)
  have htot : (trioFold (filteredRaces f db)).total_races = (qualRaces f db).length := by
    unfold trioFold
    rw [foldFlush_total]
    simp [qualRaces]
  by_cases hA : (filteredRaces f db).all (fun r => retrievedEntries r = []) = true
  · have hfetch : fetchTrifectaStatistics f db = .error .NoMatchingData := by
      unfold fetchTrifectaStatistics
      rw [if_pos hA]
    refine ⟨⟨fun _ => hnil.mpr hA, fun _ => hfetch⟩, ⟨?_, ?_⟩, ?_⟩
    · intro hcontra
      rw [hfetch] at hcontra
      exact absurd hcontra (by simp)
    · rintro ⟨hne, -⟩
      exact absurd (hnil.mpr hA) hne
    · intro hne _
      exact absurd (hnil.mpr hA) hne
  · have hne : (filteredRaces f db).flatMap retrievedEntries ≠ [] :=
      fun hcontra => hA (hnil.mp hcontra)
    by_cases hQ : qualRaces f db = []
    · have hfetch : fetchTrifectaStatistics f db = .error .IncompleteHistoricalData := by
        unfold fetchTrifectaStatistics
        rw [if_neg hA, if_pos (by rw [htot, hQ]; rfl)]
      refine ⟨⟨?_, ?_⟩, ⟨fun _ => ⟨hne, hQ⟩, fun _ => hfetch⟩, ?_⟩
      · intro hcontra
        rw [hfetch] at hcontra
        exact absurd hcontra (by simp)
      · intro hcontra
        exact absurd (hnil.mp hcontra) hA
      · intro _ hq
        exact absurd hQ hq
    · have hfetch : fetchTrifectaStatistics f db =
          .ok ((qualRaces f db).length, (trioFold (filteredRaces f db)).combo_stats) := by
        unfold fetchTrifectaStatistics
        rw [if_neg hA, if_neg (htot ▸ fun hz => hQ (List.length_eq_zero.mp hz)), htot]
      refine ⟨⟨?_, ?_⟩, ⟨?_, ?_⟩, fun _ _ => hfetch⟩
      · intro hcontra
        rw [hfetch] at hcontra
        exact absurd hcontra (by simp)
      · intro hcontra
        exact absurd (hnil.mp hcontra) hA
      · intro hcontra
        rw [hfetch] at hcontra
        exact absurd hcontra (by simp)
      · rintro ⟨-, hq⟩
        exact absurd hq hQ

/-- C6 witness: on the single-race example store the engine returns the
qualifying count and mapping without error. -/
theorem C6_witness :
    fetchTrifectaStatistics {} [exRace] =
      .ok ((qualRaces {} [exRace]).length,
           (trioFold (filteredRaces {} [exRace])).combo_stats) :=
  (C6_trio_failure_conditions {} [exRace]).2.2 (by decide) (by decide)

/-- The contribution condition exactly as the claim words it: exactly three
of the race's retrieved entries have finish position 1, 2 or 3, and those
three all have strictly positive popularity ranks. -/
def specCondition (r : Race) : Bool :=
  ((retrievedEntries r).filter
      (fun e => 1 ≤ e.finish_position && e.finish_position ≤ 3)).length = 3 &&
  !(((retrievedEntries r).filter
      (fun e => 1 ≤ e.finish_position && e.finish_position ≤ 3)).map
        (fun e => e.popularity)).any (fun p => p ≤ 0)

/-- C2 counterexample: `cxRace` carries a finish-position-0 entry next to a
full podium, so exactly three of its retrieved entries finish 1..3 with
positive ranks and the claim says the race contributes; the code's group
has four retrieved rows (`finish_position <= 3` also admits 0), the race is
discarded, and the one-race store errors out instead of aggregating it. -/
theorem C2_counterexample :
    specCondition cxRace = true ∧
      fetchTrifectaStatistics {} [cxRace] = .error .IncompleteHistoricalData := by
  constructor
  · rfl
  · rfl

/-- C2 (amended): a race contributes iff it qualifies, where qualification
counts the entries retrieved by the `finish_position <= 3` filter (the code
also retrieves zero or negative finish positions) rather than exactly the
positions 1..3; for qualifying races the key is the ascending popularity
triple and the count, blended-return and popularity-sum accumulators sum
the per-race contributions, while other races are silently excluded and do
not count toward the total. -/
theorem C2_amended_contribution (f : Filters) (db : List Race) (total : Nat)
    (stats : List (List Int × ComboStat)) (key : List Int)
    (h : fetchTrifectaStatistics f db = .ok (total, stats)) :
    total = (qualRaces f db).length ∧
    countOf stats key = ((qualRacesWith f db key).length : ℚ) ∧
    returnOf stats key =
      ((qualRacesWith f db key).map (fun r => blendedReturn (retrievedEntries r))).sum ∧
    popSumOf stats key =
      ((qualRacesWith f db key).map (fun r => popularitySum (retrievedEntries r))).sum := by
  obtain ⟨ht, hk⟩ := fetch_ok_characterization f db total stats h
  exact ⟨ht, (hk key).1, (hk key).2.1, (hk key).2.2⟩

/-- C2 witness: the single-race store aggregates race R1 into combination
(1,2,3) with one observation, blended return 660 and popularity sum 6. -/
theorem C2_amended_witness :
    (1 : Nat) = (qualRaces {} [exRace]).length ∧
    countOf [([1, 2, 3], ⟨1, 660, 6⟩)] [1, 2, 3] =
      ((qualRacesWith {} [exRace] [1, 2, 3]).length : ℚ) ∧
    returnOf [([1, 2, 3], ⟨1, 660, 6⟩)] [1, 2, 3] =
      ((qualRacesWith {} [exRace] [1, 2, 3]).map
        (fun r => blendedReturn (retrievedEntries r))).sum ∧
    popSumOf [([1, 2, 3], ⟨1, 660, 6⟩)] [1, 2, 3] =
      ((qualRacesWith {} [exRace] [1, 2, 3]).map
        (fun r => popularitySum (retrievedEntries r))).sum :=
  C2_amended_contribution {} [exRace] 1 [([1, 2, 3], ⟨1, 660, 6⟩)] [1, 2, 3]
    (by
      norm_num [fetchTrifectaStatistics, filteredRaces, matchesFilters, matchOpt,
        retrievedEntries, trioFold, flushRace, raceQualifies, comboKey, sortAsc,
        insAsc, blendedReturn, popularitySum, updateCombo, exRace, exMeta,
        exEntry1, exEntry2, exEntry3])

/-- C1 counterexample: with one qualifying historical race on combination
(1,2,3) and the candidate set {1,2,3} there is exactly one candidate
combination, and its smoothed hit rate is (1+1)/(1+1*1) = 1 — not strictly
less than 1 as the claim demands. -/
theorem C1_counterexample :
    recommend_bets {} [exRace] [1, 2, 3] 100 1 =
      .ok [⟨[1, 2, 3], 1, 660, 660, 100⟩] := by
  norm_num [recommend_bets, fetchTrifectaStatistics, filteredRaces, matchesFilters,
    matchOpt, retrievedEntries, trioFold, flushRace, raceQualifies, comboKey, sortAsc,
    insAsc, blendedReturn, popularitySum, updateCombo, candidateCombos, combinations3,
    combinations2, candidateRecommendations, rankedRecommendations, sortDescBy,
    insDescBy, mkRecommendation, lookupCombo, globalAvgReturn, List.dedup, exRace,
    exMeta, exEntry1, exEntry2, exEntry3]

/-- C1 (amended): every smoothed hit rate computed by `recommend_bets` is
strictly greater than 0 and at most 1; the value 1 is attained only in the
degenerate case of a single candidate combination observed in every
qualifying race, so the bound cannot be strict at the top. -/
theorem C1_amended_hit_rate_bounds (f : Filters) (db : List Race)
    (pops : List Int) (budget tickets : Int) (out : List BetRecommendation)
    (h : recommend_bets f db pops budget tickets = .ok out) :
    ∀ b ∈ out, 0 < b.hit_rate ∧ b.hit_rate ≤ 1 := by
  intro b hb
  obtain ⟨-, -, -, total, stats, hfetch, hcombos, -⟩ :=
    recommend_bets_ok_elim f db pops budget tickets out h
  obtain ⟨combo, -, hmk⟩ :=
    recommend_bets_out_mem f db pops budget tickets out total stats hfetch h b hb
  subst hmk
  rw [mkRecommendation_hit_rate]
  have hn : 0 < (candidateCombos pops).length := List.length_pos.mpr hcombos
  have hn2 : (1 : ℚ) ≤ ((candidateCombos pops).length : ℚ) := by
    exact_mod_cast hn
  have htot : (0 : ℚ) ≤ (total : ℚ) := by positivity
  have hcle := countOf_le_total f db total stats hfetch combo
  have hcnn := countOf_nonneg f db total stats hfetch combo
  have hden : (0 : ℚ) < (total : ℚ) + 1 * ((candidateCombos pops).length : ℚ) := by
    linarith
  constructor
  · apply div_pos
    · linarith
    · exact hden
  · rw [div_le_one hden]
    linarith

/-- C1 witness: the hit rate of the single recommendation returned on the
example store lies in (0, 1]. -/
theorem C1_amended_witness :
    0 < (BetRecommendation.mk [1, 2, 3] 1 660 660 100).hit_rate ∧
      (BetRecommendation.mk [1, 2, 3] 1 660 660 100).hit_rate ≤ 1 :=
  C1_amended_hit_rate_bounds {} [exRace] [1, 2, 3] 100 1
    [⟨[1, 2, 3], 1, 660, 660, 100⟩]
    (by
      norm_num [recommend_bets, fetchTrifectaStatistics, filteredRaces,
        matchesFilters, matchOpt, retrievedEntries, trioFold, flushRace,
        raceQualifies, comboKey, sortAsc, insAsc, blendedReturn, popularitySum,
        updateCombo, candidateCombos, combinations3, combinations2,
        candidateRecommendations, rankedRecommendations, sortDescBy, insDescBy,
        mkRecommendation, lookupCombo, globalAvgReturn, List.dedup, exRace,
        exMeta, exEntry1, exEntry2, exEntry3])
    _ (by simp)

/-- C3: every returned recommendation's hit rate is the Laplace-smoothed
rate (observed count + α) / (total qualifying races + α × number of
candidate combinations) with α = 1, the observed count defaulting to 0 for
a combination absent from the statistics. -/
theorem C3_smoothed_hit_rate_formula (f : Filters) (db : List Race)
    (pops : List Int) (budget tickets : Int) (out : List BetRecommendation)
    (total : Nat) (stats : List (List Int × ComboStat))
    (hfetch : fetchTrifectaStatistics f db = .ok (total, stats))
    (h : recommend_bets f db pops budget tickets = .ok out)
    (b : BetRecommendation) (hb : b ∈ out) :
    b.hit_rate = (countOf stats b.combination + 1) /
      ((total : ℚ) + 1 * ((candidateCombos pops).length : ℚ)) := by
  obtain ⟨combo, -, hmk⟩ :=
    recommend_bets_out_mem f db pops budget tickets out total stats hfetch h b hb
  subst hmk
  rw [mkRecommendation_hit_rate, mkRecommendation_combination]

/-- C3 witness: the returned hit rate 1 on the example store matches the
smoothing formula (1 + 1) / (1 + 1 × 1). -/
theorem C3_witness :
    (BetRecommendation.mk [1, 2, 3] 1 660 660 100).hit_rate =
      (countOf [([1, 2, 3], ⟨1, 660, 6⟩)]
          (BetRecommendation.mk [1, 2, 3] 1 660 660 100).combination + 1) /
        ((1 : ℚ) + 1 * ((candidateCombos [1, 2, 3]).length : ℚ)) :=
  C3_smoothed_hit_rate_formula {} [exRace] [1, 2, 3] 100 1
    [⟨[1, 2, 3], 1, 660, 660, 100⟩] 1 [([1, 2, 3], ⟨1, 660, 6⟩)]
    (by
      norm_num [fetchTrifectaStatistics, filteredRaces, matchesFilters, matchOpt,
        retrievedEntries, trioFold, flushRace, raceQualifies, comboKey, sortAsc,
        insAsc, blendedReturn, popularitySum, updateCombo, exRace, exMeta,
        exEntry1, exEntry2, exEntry3])
    (by
      norm_num [recommend_bets, fetchTrifectaStatistics, filteredRaces,
        matchesFilters, matchOpt, retrievedEntries, trioFold, flushRace,
        raceQualifies, comboKey, sortAsc, insAsc, blendedReturn, popularitySum,
        updateCombo, candidateCombos, combinations3, combinations2,
        candidateRecommendations, rankedRecommendations, sortDescBy, insDescBy,
        mkRecommendation, lookupCombo, globalAvgReturn, List.dedup, exRace,
        exMeta, exEntry1, exEntry2, exEntry3])
    _ (by simp)

/-- C4: every returned recommendation's average payout is its historical
mean blended return when observed at least once and otherwise the global
fallback (the mean of the observed combinations' average payouts, or 100
when nothing was ever observed), and its expected return per ticket is
(budget / num_tickets) × (average payout / 100) × smoothed hit rate. -/
theorem C4_payout_and_expected_return (f : Filters) (db : List Race)
    (pops : List Int) (budget tickets : Int) (out : List BetRecommendation)
    (total : Nat) (stats : List (List Int × ComboStat))
    (hfetch : fetchTrifectaStatistics f db = .ok (total, stats))
    (h : recommend_bets f db pops budget tickets = .ok out)
    (b : BetRecommendation) (hb : b ∈ out) :
    b.estimated_average_payout =
      (if 0 < countOf stats b.combination
       then returnOf stats b.combination / countOf stats b.combination
       else specFallback stats) ∧
    b.expected_return_per_ticket =
      ((budget : ℚ) / (tickets : ℚ)) * (b.estimated_average_payout / 100) *
        b.hit_rate := by
  obtain ⟨combo, -, hmk⟩ :=
    recommend_bets_out_mem f db pops budget tickets out total stats hfetch h b hb
  subst hmk
  constructor
  · rw [mkRecommendation_combination]
    exact mkRecommendation_payout total stats (candidateCombos pops).length
      ((budget : ℚ) / (tickets : ℚ)) combo
      (fetch_ok_counts_ge_one f db total stats hfetch)
  · exact mkRecommendation_expected total stats (candidateCombos pops).length
      ((budget : ℚ) / (tickets : ℚ)) combo

/-- C4 witness: the example recommendation's payout 660 is its mean blended
return and its expected return 660 satisfies the per-ticket formula. -/
theorem C4_witness :
    ((BetRecommendation.mk [1, 2, 3] 1 660 660 100).estimated_average_payout =
      (if 0 < countOf [([1, 2, 3], ⟨1, 660, 6⟩)]
            (BetRecommendation.mk [1, 2, 3] 1 660 660 100).combination
       then returnOf [([1, 2, 3], ⟨1, 660, 6⟩)]
              (BetRecommendation.mk [1, 2, 3] 1 660 660 100).combination /
            countOf [([1, 2, 3], ⟨1, 660, 6⟩)]
              (BetRecommendation.mk [1, 2, 3] 1 660 660 100).combination
       else specFallback [([1, 2, 3], ⟨1, 660, 6⟩)])) ∧
    (BetRecommendation.mk [1, 2, 3] 1 660 660 100).expected_return_per_ticket =
      ((100 : ℚ) / (1 : ℚ)) *
        ((BetRecommendation.mk [1, 2, 3] 1 660 660 100).estimated_average_payout / 100) *
        (BetRecommendation.mk [1, 2, 3] 1 660 660 100).hit_rate :=
  C4_payout_and_expected_return {} [exRace] [1, 2, 3] 100 1
    [⟨[1, 2, 3], 1, 660, 660, 100⟩] 1 [([1, 2, 3], ⟨1, 660, 6⟩)]
    (by
      norm_num [fetchTrifectaStatistics, filteredRaces, matchesFilters, matchOpt,
        retrievedEntries, trioFold, flushRace, raceQualifies, comboKey, sortAsc,
        insAsc, blendedReturn, popularitySum, updateCombo, exRace, exMeta,
        exEntry1, exEntry2, exEntry3])
    (by
      norm_num [recommend_bets, fetchTrifectaStatistics, filteredRaces,
        matchesFilters, matchOpt, retrievedEntries, trioFold, flushRace,
        raceQualifies, comboKey, sortAsc, insAsc, blendedReturn, popularitySum,
        updateCombo, candidateCombos, combinations3, combinations2,
        candidateRecommendations, rankedRecommendations, sortDescBy, insDescBy,
        mkRecommendation, lookupCombo, globalAvgReturn, List.dedup, exRace,
        exMeta, exEntry1, exEntry2, exEntry3])
    _ (by simp)

/-- C5: the returned list is the first min(num_tickets, candidate count)
elements of a reordering of the per-combination recommendations that is
sorted by expected return per ticket in descending order and keeps
equal-valued recommendations in their original enumeration order, and each
returned element is one of the per-combination recommendations (carrying
its combination, hit rate, payout, expected return and stake). -/
theorem C5_sorted_stable_truncated (f : Filters) (db : List Race)
    (pops : List Int) (budget tickets : Int) (out : List BetRecommendation)
    (total : Nat) (stats : List (List Int × ComboStat))
    (hfetch : fetchTrifectaStatistics f db = .ok (total, stats))
    (h : recommend_bets f db pops budget tickets = .ok out) :
    (rankedRecommendations total stats pops budget tickets).Perm
      (candidateRecommendations total stats pops budget tickets) ∧
    (rankedRecommendations total stats pops budget tickets).Pairwise
      (fun a b => b.expected_return_per_ticket ≤ a.expected_return_per_ticket) ∧
    (∀ v : ℚ,
      (rankedRecommendations total stats pops budget tickets).filter
          (fun b => b.expected_return_per_ticket = v) =
        (candidateRecommendations total stats pops budget tickets).filter
          (fun b => b.expected_return_per_ticket = v)) ∧
    out = (rankedRecommendations total stats pops budget tickets).take
      (min tickets.toNat ((candidateCombos pops).length)) ∧
    ∀ b ∈ out, b ∈ candidateRecommendations total stats pops budget tickets := by
  obtain ⟨-, -, -, total2, stats2, hfetch2, -, hout⟩ :=
    recommend_bets_ok_elim f db pops budget tickets out h
  rw [hfetch] at hfetch2
  simp only [Except.ok.injEq, Prod.mk.injEq] at hfetch2
  obtain ⟨ht, hs⟩ := hfetch2
  subst ht
  subst hs
  have hlen : (rankedRecommendations total stats pops budget tickets).length =
      (candidateCombos pops).length := by
    unfold rankedRecommendations
    rw [(sortDescBy_perm _ _).length_eq]
    exact length_candidateRecommendations total stats pops budget tickets
  refine ⟨sortDescBy_perm _ _, sortDescBy_pairwise _ _, fun v => sortDescBy_filter _ _ v,
    by rw [hout, hlen], ?_⟩
  intro b hb
  rw [hout] at hb
  exact (sortDescBy_perm (fun b : BetRecommendation => b.expected_return_per_ticket)
    _).mem_iff.mp (List.mem_of_mem_take hb)

/-- C5 witness: on the example store the returned list is the truncated
sorted list. -/
theorem C5_witness :
    [(⟨[1, 2, 3], 1, 660, 660, 100⟩ : BetRecommendation)] =
      (rankedRecommendations 1 [([1, 2, 3], ⟨1, 660, 6⟩)] [1, 2, 3] 100 1).take
        (min (1 : Int).toNat ((candidateCombos [1, 2, 3]).length)) :=
  (C5_sorted_stable_truncated {} [exRace] [1, 2, 3] 100 1
    [⟨[1, 2, 3], 1, 660, 660, 100⟩] 1 [([1, 2, 3], ⟨1, 660, 6⟩)]
    (by
      norm_num [fetchTrifectaStatistics, filteredRaces, matchesFilters, matchOpt,
        retrievedEntries, trioFold, flushRace, raceQualifies, comboKey, sortAsc,
        insAsc, blendedReturn, popularitySum, updateCombo, exRace, exMeta,
        exEntry1, exEntry2, exEntry3])
    (by
      norm_num [recommend_bets, fetchTrifectaStatistics, filteredRaces,
        matchesFilters, matchOpt, retrievedEntries, trioFold, flushRace,
        raceQualifies, comboKey, sortAsc, insAsc, blendedReturn, popularitySum,
        updateCombo, candidateCombos, combinations3, combinations2,
        candidateRecommendations, rankedRecommendations, sortDescBy, insDescBy,
        mkRecommendation, lookupCombo, globalAvgReturn, List.dedup, exRace,
        exMeta, exEntry1, exEntry2, exEntry3])).2.2.2.1

/-- C7 counterexample: the candidate list [1,1,1] has fewer than three
distinct ranks, so the claim demands an InsufficientCandidates failure
before any query; the code only checks the list's length (3), issues the
query, and on an empty store reports the query-side NoMatchingData error
instead. -/
theorem C7_counterexample :
    recommend_bets {} [] [1, 1, 1] 100 1 = .error .NoMatchingData := by rfl

/-- C7 (amended): a non-positive ticket count fails with InvalidTicketCount
and a non-positive budget with InvalidBudget, checked in that order, and a
candidate list with fewer than three elements fails with
InsufficientCandidates — all three before any query, for every store.  A
list of three or more elements with fewer than three distinct ranks passes
validation: the query is issued, a query-side error is propagated as such,
and only on success is InsufficientCandidates raised. -/
theorem C7_amended_validation (f : Filters) (db : List Race) (pops : List Int)
    (budget tickets : Int) :
    (tickets ≤ 0 →
      recommend_bets f db pops budget tickets = .error .InvalidTicketCount) ∧
    (0 < tickets → budget ≤ 0 →
      recommend_bets f db pops budget tickets = .error .InvalidBudget) ∧
    (0 < tickets → 0 < budget → pops.length < 3 →
      recommend_bets f db pops budget tickets = .error .InsufficientCandidates) ∧
    (0 < tickets → 0 < budget → 3 ≤ pops.length → pops.dedup.length < 3 →
      recommend_bets f db pops budget tickets =
        match fetchTrifectaStatistics f db with
        | .error e => .error e
        | .ok _ => .error .InsufficientCandidates) := by
  refine ⟨?_, ?_, ?_, ?_⟩
  · intro ht
    unfold recommend_bets
    rw [if_pos ht]
  · intro ht hb
    unfold recommend_bets
    rw [if_neg (not_le.mpr ht), if_pos hb]
  · intro ht hb hl
    unfold recommend_bets
    rw [if_neg (not_le.mpr ht), if_neg (not_le.mpr hb), if_pos hl]
  · intro ht hb hl hd
    unfold recommend_bets
    rw [if_neg (not_le.mpr ht), if_neg (not_le.mpr hb), if_neg (not_lt.mpr hl)]
    cases hfetch : fetchTrifectaStatistics f db with
    | error e => rfl
    | ok p =>
        obtain ⟨total, stats⟩ := p
        simp only []
        rw [if_pos ((candidateCombos_eq_nil_iff pops).mpr hd)]

/-- C7 witness: num_tickets = 0 is rejected as InvalidTicketCount. -/
theorem C7_amended_witness :
    recommend_bets {} [exRace] [1, 2, 3] 100 0 = .error .InvalidTicketCount :=
  (C7_amended_validation {} [exRace] [1, 2, 3] 100 0).1 (by norm_num)

/-- C8: the single-selection engine fails with NoMatchingData exactly when
no rows match the filter; on success each rank's statistic carries the bet
count, the distinct-race count, the win rate as the fraction of its entries
finishing 1st, and an expected return per 100 currency units equal to the
average win payout minus 100. -/
theorem C8_single_selection_statistics (f : Filters) (db : List Race) :
    (singleSelectionStatistics f db = .error .NoMatchingData ↔
      singleRows f db = []) ∧
    (∀ outStats, singleSelectionStatistics f db = .ok outStats →
      ∀ rank st, (rank, st) ∈ outStats →
        st.bet_count =
          ((singleRows f db).filter (fun q => q.2.popularity = rank)).length ∧
        st.race_count =
          ((((singleRows f db).filter (fun q => q.2.popularity = rank)).map
            (fun q => q.1)).dedup).length ∧
        st.win_rate =
          (((((singleRows f db).filter (fun q => q.2.popularity = rank)).filter
              (fun q => q.2.finish_position = 1)).length : ℚ)) / (st.bet_count : ℚ) ∧
        st.expected_return_per_100 = st.avg_win_payout - 100) := by
  constructor
  · unfold singleSelectionStatistics
    by_cases hrows : singleRows f db = []
    · rw [if_pos hrows]
      simp [hrows]
    · rw [if_neg hrows]
      simp [hrows]
  · intro outStats hok rank st hmem
    unfold singleSelectionStatistics at hok
    by_cases hrows : singleRows f db = []
    · rw [if_pos hrows] at hok
      exact absurd hok (by simp)
    · rw [if_neg hrows] at hok
      simp only [Except.ok.injEq] at hok
      rw [← hok] at hmem
      rcases List.mem_map.mp hmem with ⟨p, -, hp⟩
      simp only [Prod.mk.injEq] at hp
      obtain ⟨hp1, hp2⟩ := hp
      subst hp1
      rw [← hp2]
      unfold rankStatistic
      refine ⟨rfl, rfl, rfl, rfl⟩

/-- C8 witness: on the example store, rank 1 was bet once in one race, won
it, and averaged a 300 win payout for a +200 expected return per 100. -/
theorem C8_witness :
    (⟨1, 1, 1, 300, 200⟩ : PopularityStatistic).bet_count =
      ((singleRows {} [exRace]).filter (fun q => q.2.popularity = 1)).length ∧
    (⟨1, 1, 1, 300, 200⟩ : PopularityStatistic).race_count =
      ((((singleRows {} [exRace]).filter (fun q => q.2.popularity = 1)).map
        (fun q => q.1)).dedup).length ∧
    (⟨1, 1, 1, 300, 200⟩ : PopularityStatistic).win_rate =
      (((((singleRows {} [exRace]).filter (fun q => q.2.popularity = 1)).filter
          (fun q => q.2.finish_position = 1)).length : ℚ)) /
        (((⟨1, 1, 1, 300, 200⟩ : PopularityStatistic).bet_count : ℚ)) ∧
    (⟨1, 1, 1, 300, 200⟩ : PopularityStatistic).expected_return_per_100 =
      (⟨1, 1, 1, 300, 200⟩ : PopularityStatistic).avg_win_payout - 100 :=
  (C8_single_selection_statistics {} [exRace]).2
    [(1, ⟨1, 1, 1, 300, 200⟩), (2, ⟨1, 1, 0, 0, -100⟩), (3, ⟨1, 1, 0, 0, -100⟩)]
    (by
      norm_num [singleSelectionStatistics, singleRows, filteredRaces,
        matchesFilters, matchOpt, rankStatistic, List.dedup, exRace, exMeta,
        exEntry1, exEntry2, exEntry3]
      intro hcontra
      exact absurd hcontra (by simp))
    1 ⟨1, 1, 1, 300, 200⟩ (by simp)

/-- C9: re-ingesting the same parsed file reports identical race and entry
counts, and after the second ingestion the store still has at most one
races row per race_id and at most one race_entries row per
(race_id, horse_number), given a store that satisfied those unique-key
invariants to begin with. -/
theorem C9_ingest_idempotent (rows : List CsvRow) (store : Store)
    (h1 : (store.races.map (fun r => r.race_id)).Nodup)
    (h2 : (store.entries.map entryKey).Nodup) :
    (ingest_csv rows ((ingest_csv rows store).2)).1 = (ingest_csv rows store).1 ∧
    ((ingest_csv rows ((ingest_csv rows store).2)).2.races.map
      (fun r => r.race_id)).Nodup ∧
    ((ingest_csv rows ((ingest_csv rows store).2)).2.entries.map entryKey).Nodup := by
  refine ⟨rfl, ?_, ?_⟩
  · exact bulkUpsert_nodup (fun r => r.race_id) (raceRecordsOf rows) _
      (bulkUpsert_nodup (fun r => r.race_id) (raceRecordsOf rows) _ h1)
  · exact bulkUpsert_nodup entryKey (rows.map entryRowOf) _
      (bulkUpsert_nodup entryKey (rows.map entryRowOf) _ h2)

/-- A parsed CSV row for one entry of race R1. -/
def exCsv : CsvRow :=
  ⟨"R1", "2024-01-01", "tokyo", 1600, "good", 3, "left", "sunny",
   5, "Uma", 1, 1, 2, 1, 300, 110⟩

/-- C9 witness: ingesting the one-row file twice into an empty store. -/
theorem C9_witness :
    (ingest_csv [exCsv] ((ingest_csv [exCsv] ⟨[], []⟩).2)).1 =
      (ingest_csv [exCsv] ⟨[], []⟩).1 ∧
    ((ingest_csv [exCsv] ((ingest_csv [exCsv] ⟨[], []⟩).2)).2.races.map
      (fun r => r.race_id)).Nodup ∧
    ((ingest_csv [exCsv] ((ingest_csv [exCsv] ⟨[], []⟩).2)).2.entries.map
      entryKey).Nodup :=
  C9_ingest_idempotent [exCsv] ⟨[], []⟩ (by simp) (by simp)

end Keiba
